import Mathlib

/-!
Verification of the clawrank-scanner detection and scoring engine.

The JavaScript sources are embedded shallowly:
* file contents, file names, lines and snippets are `Str` (lists of
  characters), so that the string manipulation of the scanner
  (`split`, `substring`, `trim`, `toLowerCase`, ...) can be reasoned
  about directly;
* label-like fields (severities, grades, colors, pattern ids,
  categories, descriptions) stay Lean `String`s;
* regular expressions are embedded through an explicit `Rgx` record
  holding the `exec` search function of the JavaScript RegExp object;
  the concrete expressions needed for concrete evaluations are given
  by a small derivative-based engine further below;
* the file system consumed by `analyzeSkill` is an explicit tree value
  in which every read result (success or thrown error) is recorded.
-/

/-- Character lists standing for JavaScript strings. -/
abbrev Str := List Char

/-- JavaScript `toLowerCase`, character by character (ASCII range). -/
def lowerAll (s : Str) : Str := s.map Char.toLower

/-- JavaScript `String.prototype.split` with a single-character
separator: always returns at least one (possibly empty) piece. -/
def splitOnChar (c : Char) : Str → List Str
  | [] => [[]]
  | d :: rest =>
    match splitOnChar c rest with
    | [] => [[]]
    | s :: ss => if d = c then [] :: s :: ss else (d :: s) :: ss

/-- Last element of a list with a default, as JavaScript `pop()` on a
nonempty array. -/
def lastD (l : List Str) (dft : Str) : Str := l.getLastD dft

/-- Prefix test on character lists. -/
def startsSeq (pat s : Str) : Bool := List.isPrefixOf pat s

/-- Substring test on character lists (JavaScript `includes`). -/
def containsSeq (pat : Str) : Str → Bool
  | [] => startsSeq pat []
  | c :: rest => startsSeq pat (c :: rest) || containsSeq pat rest

/-- Whitespace recognized by JavaScript `trim` (ASCII part; the
scanned contents contain no exotic Unicode whitespace). -/
def jsTrimWs (c : Char) : Bool :=
  c = ' ' || c = '\t' || c = '\n' || c = '\r' ||
  c = Char.ofNat 11 || c = Char.ofNat 12

/-- JavaScript `trim`: drop whitespace from both ends. -/
def trimL (s : Str) : Str :=
  ((s.dropWhile jsTrimWs).reverse.dropWhile jsTrimWs).reverse

/-!
Embedding of `src/scorer.js`.

`SEVERITY_DEDUCTIONS`, `GRADE_THRESHOLDS` and `COLOR_MAP` are the
constant tables at the top of the file; `calculateScore` and
`getGrade` are translated clause by clause.  The JavaScript
`severityCounts` object with its four fixed keys becomes four
numeric fields; the `deductions` object (entries only for a strictly
positive count, in the key order CRITICAL, HIGH, MEDIUM, LOW of the
`severityCounts` literal) becomes a list of `Deduction` records.
-/

/-- One finding as produced by `analyzeFile` in `src/analyzer.js`
(fields of the pushed object literal).  The `allowlisted`,
`context` and `allowlistReason` fields are the ones consumed by
`src/cli.js` (`f.allowlisted || false`, `f.context || null`); the
version of `analyzeFile` present in the repository never sets them,
so they default to the JavaScript `undefined` readings. -/
structure Finding where
  severity : String
  category : String
  description : String
  patternId : String
  file : Str
  line : Nat
  snippet : Str
  matched : Str
  allowlisted : Bool := false
  context : Option Str := none
  allowlistReason : Option String := none
deriving DecidableEq, Repr

/-- The `SEVERITY_DEDUCTIONS` table of `src/scorer.js`. -/
def severityDeduction (sev : String) : Nat :=
  if sev = "CRITICAL" then 30
  else if sev = "HIGH" then 15
  else if sev = "MEDIUM" then 5
  else 0

/-- One entry of the `deductions` breakdown object of
`calculateScore` (`count`, `perFinding`, `total` keyed by severity). -/
structure Deduction where
  severity : String
  count : Nat
  perFinding : Nat
  total : Nat
deriving DecidableEq, Repr

/-- The result object of `calculateScore` in `src/scorer.js`. -/
structure ScoreResult where
  score : Int
  grade : String
  color : Option String
  countCritical : Nat
  countHigh : Nat
  countMedium : Nat
  countLow : Nat
  deductions : List Deduction
  totalFindings : Nat
deriving DecidableEq, Repr

/-- The counting loop of `calculateScore`: findings whose severity is
one of the four `severityCounts` keys are counted, all others are
ignored (`hasOwnProperty` guard). -/
def countSevs : List Finding → Nat × Nat × Nat × Nat
  | [] => (0, 0, 0, 0)
  | f :: fs =>
    match countSevs fs with
    | (c, h, m, l) =>
      if f.severity = "CRITICAL" then (c + 1, h, m, l)
      else if f.severity = "HIGH" then (c, h + 1, m, l)
      else if f.severity = "MEDIUM" then (c, h, m + 1, l)
      else if f.severity = "LOW" then (c, h, m, l + 1)
      else (c, h, m, l)

/-- The `getGrade` function of `src/scorer.js` (fixed
`GRADE_THRESHOLDS`). -/
def getGrade (score : Int) : String :=
  if score ≥ 90 then "A"
  else if score ≥ 80 then "B"
  else if score ≥ 70 then "C"
  else if score ≥ 60 then "D"
  else "F"

/-- The `COLOR_MAP` object of `src/scorer.js`; lookup of a missing
key yields the JavaScript `undefined`, here `none`. -/
def colorMap (grade : String) : Option String :=
  if grade = "A" then some "green"
  else if grade = "B" then some "yellow"
  else if grade = "C" then some "orange"
  else if grade = "D" then some "orange"
  else if grade = "F" then some "red"
  else none

/-- The `deductions` breakdown built by `calculateScore`: an entry per
severity with nonzero count, in the key order of the `severityCounts`
object literal. -/
def deductionList (c h m l : Nat) : List Deduction :=
  (if c > 0 then [⟨"CRITICAL", c, 30, 30 * c⟩] else []) ++
  (if h > 0 then [⟨"HIGH", h, 15, 15 * h⟩] else []) ++
  (if m > 0 then [⟨"MEDIUM", m, 5, 5 * m⟩] else []) ++
  (if l > 0 then [⟨"LOW", l, 0, 0⟩] else [])

/-- The `calculateScore` function of `src/scorer.js`: start at 100,
deduct `count * weight` per severity tier, clamp at 0, grade and
color the result, and report the per-severity breakdown together
with the raw length of the findings list. -/
def calculateScore (findings : List Finding) : ScoreResult :=
  match countSevs findings with
  | (c, h, m, l) =>
    let score : Int := max 0 (100 - (30 * (c : Int) + 15 * (h : Int) + 5 * (m : Int) + 0 * (l : Int)))
    let grade := getGrade score
    { score := score
      grade := grade
      color := colorMap grade
      countCritical := c
      countHigh := h
      countMedium := m
      countLow := l
      deductions := deductionList c h m l
      totalFindings := findings.length }

/-- Specification-side count of findings carrying one given
severity string. -/
def severityCount (sev : String) (fs : List Finding) : Nat :=
  (fs.filter (fun f => f.severity = sev)).length

/-- The four known severity keys of the scorer. -/
def knownSeverities : List String := ["CRITICAL", "HIGH", "MEDIUM", "LOW"]

/-- A concrete finding with a severity string unknown to the scorer,
used to witness claim C10. -/
def bogusFinding : Finding :=
  { severity := "WARN", category := "x", description := "x",
    patternId := "x", file := [], line := 1, snippet := [], matched := [] }

/-!
Embedding of `src/patterns.js` (the v0.2.0 file carrying the
allowlists): `DOC_EXTENSIONS`, `DOC_DIRS`, the conventional doc
file names, `isDocFile`, `getEffectiveSeverity`, and the
`KNOWN_SAFE_BINARIES` / `KNOWN_SAFE_DOMAINS` sets.
-/

/-- The `DOC_EXTENSIONS` set. -/
def docExtensions : List Str :=
  [ ".md".data, ".txt".data, ".rst".data, ".adoc".data, ".html".data, ".htm".data ]

/-- The `DOC_DIRS` list (directory names carrying a trailing slash,
exactly as in the source). -/
def docDirs : List Str :=
  [ "docs/".data, "doc/".data, "plans/".data, "references/".data,
    "examples/".data, "example/".data, "variants/".data ]

/-- The conventional documentation file names checked by `isDocFile`. -/
def conventionalDocNames : List Str :=
  [ "license".data, "changelog".data, "changes".data, "authors".data,
    "contributors".data, "todo".data ]

/-- The extension computation of `isDocFile`: a dot followed by the
lowercased text after the last dot of the whole path (for a dotless
path this is the whole path). -/
def extOf (filename : Str) : Str :=
  '.' :: lowerAll (lastD (splitOnChar '.' filename) [])

/-- JavaScript `filename.replace` of every backslash by a slash. -/
def normalizeSlashes (filename : Str) : Str :=
  filename.map (fun c => if c = '\\' then '/' else c)

/-- The basename computation of `isDocFile`: lowercased text after
the last slash of the raw path. -/
def basenameLower (filename : Str) : Str :=
  lowerAll (lastD (splitOnChar '/' filename) [])

/-- The `isDocFile` classifier of `src/patterns.js`: documentation
extensions, then documentation directories on the
backslash-normalized lowercased path, then conventional doc
basenames. -/
def isDocFile (filename : Str) : Bool :=
  if extOf filename ∈ docExtensions then true
  else
    let normalized := lowerAll (normalizeSlashes filename)
    if docDirs.any (fun d => startsSeq d normalized || containsSeq ('/' :: d) normalized) then
      true
    else basenameLower filename ∈ conventionalDocNames

/-- Specification-side helper: the extension-stripped basename (text
before the last dot of the basename), used to state the C7
counterexample.  `isDocFile` itself never strips the extension. -/
def basenameNoExt (filename : Str) : Str :=
  let base := lastD (splitOnChar '/' filename) []
  match splitOnChar '.' base with
  | [] => base
  | [whole] => whole
  | parts => List.intercalate ['.'] parts.dropLast

/-- One match returned by the `findMatches` helper of
`src/analyzer.js` (`index` and `match[0]`). -/
structure JsMatch where
  index : Nat
  text : Str
deriving DecidableEq, Repr

/-- A JavaScript RegExp value, embedded through its `exec` search
function: given the haystack and the `lastIndex` to search from, it
returns the next match or `none`. -/
structure Rgx where
  exec : Str → Nat → Option JsMatch

/-- One detection signature of the `PATTERNS` library: id, base
severity, category, description, the optional behavioral flags, and
the ordered match-expression list. -/
structure Pattern where
  id : String
  severity : String
  category : String
  description : String
  codeOnly : Bool := false
  docSeverityOverride : Option String := none
  dedup : Bool := false
  requiresCombination : Option String := none
  patterns : List Rgx

/-- The `getEffectiveSeverity` function of `src/patterns.js`:
`none` when a code-only signature meets a documentation file
(skip), the doc override when present on a documentation file, the
base severity otherwise. -/
def getEffectiveSeverity (pat : Pattern) (filename : Str) : Option String :=
  let isDoc := isDocFile filename
  if pat.codeOnly && isDoc then none
  else if pat.docSeverityOverride.isSome && isDoc then pat.docSeverityOverride
  else some pat.severity

/-!
Embedding of `analyzeFile` in `src/analyzer.js`: the single pass
over the content, the per-signature counter with its cap of 3 (1
under `dedup`), and the finding construction with line number,
trimmed bounded snippet and matched text.
-/

/-- The `getLineNumber` helper: 1-indexed line of a character
position, as the length of the newline-split of the prefix. -/
def getLineNumber (content : Str) (index : Nat) : Nat :=
  (splitOnChar '\n' (content.take index)).length

/-- The `findMatches` loop: repeated `exec` calls, each restarting at
the end of the previous match.  The JavaScript loop does not
terminate on an empty match; the fuel (never exhausted for the
well-behaved expressions of the library, whose matches are nonempty
and advance) truncates that divergent case. -/
def findMatchesAux (r : Rgx) (content : Str) : Nat → Nat → List JsMatch
  | 0, _ => []
  | fuel + 1, pos =>
    match r.exec content pos with
    | none => []
    | some m => m :: findMatchesAux r content fuel (m.index + m.text.length)

/-- All matches of one expression in the content. -/
def findMatches (content : Str) (r : Rgx) : List JsMatch :=
  findMatchesAux r content (content.length + 1) 0

/-- The finding object pushed by `analyzeFile` for one accepted
match, paired with the matched line (`lines[lineNumber - 1] || ''`)
for the later resolution step. -/
def matchFinding (pat : Pattern) (effSev : String) (fname content : Str)
    (lines : List Str) (m : JsMatch) : Finding × Str :=
  let ln := getLineNumber content m.index
  let lineContent := lines.getD (ln - 1) []
  ({ severity := effSev, category := pat.category,
     description := pat.description, patternId := pat.id,
     file := fname, line := ln,
     snippet := (trimL lineContent).take 100, matched := m.text },
   lineContent)

/-- The inner match loop of `analyzeFile`: accept matches while the
per-signature count stays below the cap (3, or 1 under `dedup`). -/
def acceptLoop (maxF : Nat) (ddp : Bool) : Nat → List (Finding × Str) → Nat × List (Finding × Str)
  | count, [] => (count, [])
  | count, p :: ps =>
    if maxF ≤ count then (count, [])
    else if ddp && 1 ≤ count then (count, [])
    else
      match acceptLoop maxF ddp (count + 1) ps with
      | (c, acc) => (c, p :: acc)

/-- The outer expression loop of `analyzeFile`, with the same two
break conditions before each expression. -/
def regexLoop (maxF : Nat) (ddp : Bool) : Nat → List (List (Finding × Str)) → Nat × List (Finding × Str)
  | count, [] => (count, [])
  | count, blk :: rest =>
    if maxF ≤ count then (count, [])
    else if ddp && 1 ≤ count then (count, [])
    else
      match acceptLoop maxF ddp count blk with
      | (c1, a1) =>
        match regexLoop maxF ddp c1 rest with
        | (c2, a2) => (c2, a1 ++ a2)

/-- The `MAX_FINDINGS_PER_PATTERN` constant of `analyzeFile`. -/
def maxFindingsPerPattern : Nat := 3

/-- Findings (with their matched lines) contributed by one signature
to one file: skip when `getEffectiveSeverity` is `null`, otherwise
run the capped loops over the expressions in order. -/
def perPatternPairs (fname content : Str) (lines : List Str) (pat : Pattern) :
    List (Finding × Str) :=
  match getEffectiveSeverity pat fname with
  | none => []
  | some eff =>
    (regexLoop maxFindingsPerPattern pat.dedup 0
      (pat.patterns.map
        (fun r => (findMatches content r).map (matchFinding pat eff fname content lines)))).2

/-- Findings of one signature in one file. -/
def perPattern (fname content : Str) (lines : List Str) (pat : Pattern) : List Finding :=
  (perPatternPairs fname content lines pat).map Prod.fst

/-- All findings of one file paired with their matched lines, in
signature order. -/
def analyzeFilePairs (pats : List Pattern) (fname content : Str) : List (Finding × Str) :=
  (pats.map (perPatternPairs fname content (splitOnChar '\n' content))).flatten

/-- The `analyzeFile` function of `src/analyzer.js`. -/
def analyzeFile (pats : List Pattern) (fname content : Str) : List Finding :=
  (analyzeFilePairs pats fname content).map Prod.fst

/-- The effective per-signature cap enforced by the two break
conditions of the loops. -/
def effCap (maxF : Nat) (ddp : Bool) : Nat := if ddp then min 1 maxF else maxF

/-!
The `KNOWN_SAFE_BINARIES` and `KNOWN_SAFE_DOMAINS` allowlists of
`src/patterns.js` (v0.2.0), and the allowlist resolution step.  The
sets, the tests exercising `finding.allowlisted`, and the CLI
consumer (`allowlistReason`, `context`) are in the repository, but
the resolver function itself is not; it is modelled from the
specification (sections 4.2 and 4.3 step 5).
-/

/-- The `KNOWN_SAFE_BINARIES` set. -/
def knownSafeBinaries : List Str :=
  [ "bird".data, "curl".data, "jq".data, "brew".data, "git".data,
    "npm".data, "node".data, "python".data, "python3".data,
    "pip".data, "pip3".data, "wget".data, "yt-dlp".data,
    "ffmpeg".data, "ffprobe".data, "grep".data, "sed".data,
    "awk".data, "cat".data, "echo".data, "ls".data, "find".data,
    "sort".data, "uniq".data, "wc".data, "head".data, "tail".data,
    "tr".data, "date".data, "mkdir".data, "cp".data, "mv".data,
    "rm".data, "chmod".data, "touch".data, "tee".data, "xargs".data ]

/-- The `KNOWN_SAFE_DOMAINS` set. -/
def knownSafeDomains : List Str :=
  [ "reddit.com".data, "www.reddit.com".data, "oauth.reddit.com".data,
    "api.reddit.com".data, "openai.com".data, "api.openai.com".data,
    "brave.com".data, "api.search.brave.com".data,
    "anthropic.com".data, "api.anthropic.com".data,
    "github.com".data, "api.github.com".data,
    "raw.githubusercontent.com".data, "googleapis.com".data,
    "www.googleapis.com".data, "x.com".data, "api.x.com".data,
    "api.twitter.com".data, "twitter.com".data, "youtube.com".data,
    "www.youtube.com".data, "pypi.org".data,
    "files.pythonhosted.org".data, "npmjs.org".data,
    "registry.npmjs.org".data, "www.npmjs.com".data,
    "localhost".data, "127.0.0.1".data ]

/-- Modelled from the spec: characters that can extend a token, used
for the whole-token test of the Allowlist Resolver (letters, digits,
underscore, hyphen and dot, so that binary names such as yt-dlp and
domain names are single tokens). -/
def isTokenChar (c : Char) : Bool :=
  c.isAlphanum || c = '_' || c = '-' || c = '.'

/-- Modelled from the spec: the allowlist member `tok` occurs at
position `i` of the line as a whole token (no token character
immediately before or after the occurrence). -/
def wholeTokenAt (tok line : Str) (i : Nat) : Bool :=
  startsSeq tok (line.drop i) &&
  (decide (i = 0) || !(isTokenChar (line.getD (i - 1) ' '))) &&
  !(isTokenChar (line.getD (i + tok.length) ' '))

/-- Modelled from the spec: the line contains the allowlist member as
a whole-token substring. -/
def containsWholeToken (tok line : Str) : Bool :=
  decide (tok ≠ []) && (List.range (line.length + 1)).any (wholeTokenAt tok line)

/-- First allowlist member occurring in the line as a whole token. -/
def findAllowToken (lst : List Str) (line : Str) : Option Str :=
  lst.find? (fun t => containsWholeToken t line)

/-- Modelled from the spec: the Allowlist Resolver of the missing
v0.2.0 analyzer.  It scans the matched line (not the whole file)
for a known-safe binary, then a known-safe domain; the returned
reason strings are the `allowlistReason` values consumed by
`src/cli.js`. -/
def resolveAllowlist (line : Str) : Option (Str × String) :=
  match findAllowToken knownSafeBinaries line with
  | some t => some (t, "known-safe binary")
  | none =>
    match findAllowToken knownSafeDomains line with
    | some t => some (t, "known-safe domain")
    | none => none

/-- Modelled from the spec: soften severity by exactly one step of
the ordinal scale, LOW staying LOW. -/
def softenSeverity (sev : String) : String :=
  if sev = "CRITICAL" then "HIGH"
  else if sev = "HIGH" then "MEDIUM"
  else if sev = "MEDIUM" then "LOW"
  else if sev = "LOW" then "LOW"
  else sev

/-- Separator of the synthesized context string. -/
def colonSpace : Str := [':', ' ']

/-- Modelled from the spec: the context string naming the matched
allowlist token. -/
def mkAllowContext (reason : String) (tok : Str) : Str :=
  reason.data ++ colonSpace ++ tok

/-- Modelled from the spec: resolution of one accepted match.  When
the matched line holds an allowlist member as a whole token, the
finding is marked `allowlisted`, its severity is softened by one
step and the context names the token; otherwise the finding passes
through unchanged.  The finding is never dropped. -/
def resolveStep (p : Finding × Str) : Finding :=
  match resolveAllowlist p.2 with
  | some (tok, reason) =>
    { p.1 with allowlisted := true,
               severity := softenSeverity p.1.severity,
               context := some (mkAllowContext reason tok),
               allowlistReason := some reason }
  | none => p.1

/-- The per-file analysis with the spec-modelled allowlist
resolution applied to every accepted match. -/
def analyzeFileV2 (pats : List Pattern) (fname content : Str) : List Finding :=
  (analyzeFilePairs pats fname content).map resolveStep

/-- A literal-substring expression: `exec` finds the first occurrence
of the literal at or after the start position, matching the
JavaScript behavior of a RegExp holding only literal characters. -/
def litExec (pat : Str) (content : Str) (pos : Nat) : Option JsMatch :=
  (((List.range (content.length + 1)).filter
      (fun i => decide (pos ≤ i) && startsSeq pat (content.drop i))).head?).map
    (fun i => { index := i, text := pat })

/-- A literal-substring `Rgx`. -/
def litRgx (pat : Str) : Rgx := ⟨litExec pat⟩

/-- A concrete finding used to witness the allowlist resolution. -/
def demoFinding : Finding :=
  { severity := "MEDIUM", category := "Code Execution",
    description := "Shell command execution (expected in automation skills)",
    patternId := "shell-exec", file := ("runner.js").data, line := 1,
    snippet := [], matched := [] }

/-- A concrete accepted match (finding plus matched line) whose line
names the known-safe binary git. -/
def demoPair : Finding × Str := (demoFinding, ("execSync(git status)").data)

/-- A concrete code-only probe signature used to witness claim C2. -/
def probePatternA : Pattern :=
  { id := "probe-a", severity := "MEDIUM", category := "Probe",
    description := "probe", codeOnly := true,
    patterns := [litRgx ("child_process").data] }

/-- A concrete dedup probe signature used to witness claim C5. -/
def probePatternB : Pattern :=
  { id := "probe-b", severity := "LOW", category := "Probe",
    description := "probe", dedup := true,
    patterns := [litRgx ("aa").data, litRgx ("b").data] }

/-!
A small regular-expression engine used to embed the concrete
expressions of the `PATTERNS` library that claim C6 needs
(`credential-exfiltration` and its declared companion
`network-activity`).  The abstract syntax covers the constructs those
expressions use: literals, the dot, the classes `\s` and `\w`, a
bracket class, alternation, concatenation and the star.  Matching is
by Brzozowski derivatives; the search is leftmost, and the match end
is the last (longest) viable end position, which on the concrete
contents used below coincides with the JavaScript backtracking
choice.  All the embedded expressions carry the `gi` flags, so the
haystack is lowercased for matching (per-character, preserving
positions) and the expressions are written over lowercase letters;
the matched text is cut from the original content.  The
`(?!localhost|127\.0\.0\.1)` negative lookahead, which ends its
expression, is embedded as a filter on the viable end positions. -/
inductive RE where
  | eps
  | fail
  | anyc
  | lit (c : Char)
  | wsC
  | wordC
  | oneOf (cs : List Char)
  | alt (a b : RE)
  | cat (a b : RE)
  | star (a : RE)

/-- JavaScript regular-expression class backslash-s (ASCII part). -/
def wsChar (c : Char) : Bool :=
  c = ' ' || c = '\t' || c = '\n' || c = '\r' ||
  c = Char.ofNat 11 || c = Char.ofNat 12

/-- JavaScript regular-expression class backslash-w. -/
def wordChar (c : Char) : Bool := c.isAlphanum || c = '_'

/-- JavaScript dot (without the dotAll flag): any character except
the four line terminators. -/
def dotChar (c : Char) : Bool :=
  !(c = '\n' || c = '\r' || c = Char.ofNat 8232 || c = Char.ofNat 8233)

/-- Does the expression accept the empty word. -/
def nullable : RE → Bool
  | .eps => true
  | .fail => false
  | .anyc => false
  | .lit _ => false
  | .wsC => false
  | .wordC => false
  | .oneOf _ => false
  | .alt a b => nullable a || nullable b
  | .cat a b => nullable a && nullable b
  | .star _ => true

/-- Brzozowski derivative with respect to one character. -/
def reDeriv : RE → Char → RE
  | .eps, _ => .fail
  | .fail, _ => .fail
  | .anyc, c => if dotChar c then .eps else .fail
  | .lit d, c => if c = d then .eps else .fail
  | .wsC, c => if wsChar c then .eps else .fail
  | .wordC, c => if wordChar c then .eps else .fail
  | .oneOf cs, c => if c ∈ cs then .eps else .fail
  | .alt a b, c => .alt (reDeriv a c) (reDeriv b c)
  | .cat a b, c =>
    if nullable a then .alt (.cat (reDeriv a c) b) (reDeriv b c)
    else .cat (reDeriv a c) b
  | .star a, c => .cat (reDeriv a c) (.star a)

/-- End positions (in ascending order) of the prefixes of the
remaining text matched by the expression, the remaining text
starting at absolute position `i`. -/
def matchEnds : RE → Str → Nat → List Nat
  | r, [], i => if nullable r then [i] else []
  | r, c :: cs, i => (if nullable r then [i] else []) ++ matchEnds (reDeriv r c) cs (i + 1)

/-- A negative lookahead placed at the end of the expression: the end
position is viable when no forbidden word starts there. -/
def nlaOk (forb : List Str) (hay : Str) (e : Nat) : Bool :=
  forb.all (fun f => !(startsSeq f (hay.drop e)))

/-- Longest viable end of a match starting at `i`, or `none`. -/
def goodEnd (r : RE) (forb : List Str) (hay : Str) (i : Nat) : Option Nat :=
  ((matchEnds r (hay.drop i) i).filter (nlaOk forb hay)).getLast?

/-- Leftmost search for a match at or after a position. -/
def reExecAux (r : RE) (forb : List Str) (hay orig : Str) : Nat → Nat → Option JsMatch
  | 0, _ => none
  | fuel + 1, i =>
    match goodEnd r forb hay i with
    | some e => some { index := i, text := (orig.drop i).take (e - i) }
    | none => reExecAux r forb hay orig fuel (i + 1)

/-- The `exec` of a case-insensitive expression with an optional
end-of-expression negative lookahead. -/
def reExec (r : RE) (forb : List Str) (content : Str) (pos : Nat) : Option JsMatch :=
  reExecAux r forb (lowerAll content) content (content.length + 1 - pos) pos

/-- An `Rgx` from an engine expression (case-insensitive, as every
embedded library expression carries the `i` flag). -/
def reRgx (r : RE) : Rgx := ⟨reExec r []⟩

/-- An `Rgx` with an end-of-expression negative lookahead. -/
def reRgxNLA (r : RE) (forb : List Str) : Rgx := ⟨reExec r forb⟩

/-- Concatenation of a list of expressions. -/
def reCat (l : List RE) : RE := l.foldr RE.cat RE.eps

/-- Literal word. -/
def reStr (s : Str) : RE := reCat (s.map RE.lit)

/-- Alternation over a list of literal words. -/
def reAltList (ws : List Str) : RE :=
  match ws.map reStr with
  | [] => RE.fail
  | a :: rest => rest.foldl RE.alt a

/-- Option operator. -/
def reOpt (a : RE) : RE := RE.alt a RE.eps

/-- Plus operator. -/
def rePlus (a : RE) : RE := RE.cat a (RE.star a)

/-- Backslash-s star. -/
def wsStar : RE := RE.star RE.wsC

/-- Backslash-s plus. -/
def wsPlus : RE := rePlus RE.wsC

/-- Dot star. -/
def dotStar : RE := RE.star RE.anyc

/-- Backslash-w star. -/
def wordStar : RE := RE.star RE.wordC

/-- The bracket class of a single quote or a double quote. -/
def quoteCls : RE := RE.oneOf [Char.ofNat 39, Char.ofNat 34]

/-- The group (key|token|secret|password) of the
credential-exfiltration expressions (lowercase: the expressions are
case-insensitive). -/
def credGroup : RE :=
  reAltList [ "key".data, "token".data, "secret".data, "password".data ]

/-- Expression 1 of credential-exfiltration. -/
def ceRe1 : RE :=
  reCat [reStr ("process.env.").data, wordStar, credGroup, dotStar,
    reStr ("fetch").data, wsStar, RE.lit '(']

/-- Expression 2 of credential-exfiltration. -/
def ceRe2 : RE :=
  reCat [reStr ("fetch").data, wsStar, RE.lit '(', dotStar,
    reStr ("process.env.").data, wordStar, credGroup]

/-- Expression 3 of credential-exfiltration. -/
def ceRe3 : RE :=
  reCat [reStr ("curl").data, wsPlus, dotStar, RE.lit '$', wordStar, credGroup]

/-- Expression 4 of credential-exfiltration. -/
def ceRe4 : RE :=
  reCat [reStr ("curl").data, wsPlus, dotStar, reStr ("-h").data, wsStar,
    quoteCls, reStr ("authorization").data]

/-- Expression 5 of credential-exfiltration. -/
def ceRe5 : RE :=
  reCat [reStr ("os.environ[").data, dotStar, RE.lit ']', dotStar,
    reStr ("urllib.request").data]

/-- Expression 6 of credential-exfiltration. -/
def ceRe6 : RE :=
  reCat [reStr ("urllib.request").data, dotStar, reStr ("os.environ[").data]

/-- The credential-exfiltration signature of the `PATTERNS` library,
with its `requiresCombination` declaration. -/
def credentialExfiltration : Pattern :=
  { id := "credential-exfiltration", severity := "CRITICAL",
    category := "Credential Access",
    description := "Credentials being sent to external endpoints",
    codeOnly := true,
    requiresCombination := some "network-activity",
    patterns := [reRgx ceRe1, reRgx ceRe2, reRgx ceRe3, reRgx ceRe4,
      reRgx ceRe5, reRgx ceRe6] }

/-- Expression 1 of network-activity (up to its trailing negative
lookahead, embedded as the end filter). -/
def naRe1 : RE :=
  reCat [reStr ("fetch").data, wsStar, RE.lit '(', wsStar, quoteCls,
    reStr ("http").data, reOpt (RE.lit 's'), reStr ("://").data]

/-- Expression 2 of network-activity. -/
def naRe2 : RE := reCat [reStr ("axios.post").data, wsStar, RE.lit '(']

/-- Expression 3 of network-activity. -/
def naRe3 : RE := reStr ("xmlhttprequest").data

/-- Expression 4 of network-activity. -/
def naRe4 : RE := reStr ("urllib.request").data

/-- The network-activity signature of the `PATTERNS` library, the
declared companion of credential-exfiltration. -/
def networkActivity : Pattern :=
  { id := "network-activity", severity := "MEDIUM",
    category := "Network Access",
    description := "Network requests (normal for API skills)",
    docSeverityOverride := some "LOW",
    patterns := [reRgxNLA naRe1 [ ("localhost").data, ("127.0.0.1").data ],
      reRgx naRe2, reRgx naRe3, reRgx naRe4] }

/-- A one-line code file on which credential-exfiltration fires
(expression 2) while network-activity has zero matches. -/
def c6Content : Str := ("fetch(u, process.env.MY_TOKEN)").data

/-- The code file name of the C6 failing input. -/
def c6File : Str := ("a.js").data

/-!
Embedding of `analyzeSkill` in `src/analyzer.js`.  The file system
is an explicit tree: a file entry records the outcome of
`readFileSync` (content, or the thrown error with its `code` and
`message`), a directory entry records the outcome of `readdirSync`
(its listing, or the thrown error).  The recursive walk accumulates
the `files` array, the findings and the console warnings; a
directory read error propagates to the surrounding try/catch of
`analyzeSkill`, which converts it into the per-skill error result.
The `timestamp` field (`new Date().toISOString()`) is the one
environmental input; it is passed as the `now` parameter.
-/

/-- A thrown Node error, with its `code` and `message`. -/
structure JsError where
  code : String
  message : Str
deriving DecidableEq, Repr

/-- One directory entry of the scanned tree. -/
inductive FSEntry where
  | fileE (name : Str) (content : Except JsError Str)
  | dirE (name : Str) (listing : List FSEntry)
  | dirFail (name : Str) (msg : Str)
deriving Repr

/-- Directory names skipped by the walk. -/
def skippedDirs : List Str :=
  [ ".git".data, "node_modules".data, ".svn".data ]

/-- File names skipped by the walk (the scanner's own artifact and
the lock files). -/
def skippedFiles : List Str :=
  [ "metadata.json".data, "package-lock.json".data,
    "yarn.lock".data, "pnpm-lock.yaml".data ]

/-- The relative path of a child (`path.relative` against the scan
root, with slash separators). -/
def relJoin (pre name : Str) : Str :=
  if pre = [] then name else pre ++ '/' :: name

/-- The console warning recorded for an unreadable file. -/
def warnMsg (rel : Str) (e : JsError) : Str :=
  ("Could not read ").data ++ rel ++ colonSpace ++ e.message

/-- Accumulator of the recursive walk: the `files` array entries
(relative path and content), the findings, the recorded warnings. -/
structure WalkAcc where
  files : List (Str × Str)
  findings : List Finding
  warnings : List Str
deriving Repr

mutual
/-- One step of `readDirRecursive` over a single entry: skip listed
names, analyze readable files, record a warning for an unreadable
file (unless its code is EISDIR), recurse into directories, and let
a directory read error escape. -/
def walkEntry (pats : List Pattern) (pre : Str) : FSEntry → Except Str WalkAcc
  | .fileE name c =>
    if name ∈ skippedFiles then .ok ⟨[], [], []⟩
    else
      match c with
      | .ok content =>
        .ok ⟨[(relJoin pre name, content)],
             analyzeFile pats (relJoin pre name) content, []⟩
      | .error e =>
        if e.code = "EISDIR" then .ok ⟨[], [], []⟩
        else .ok ⟨[], [], [warnMsg (relJoin pre name) e]⟩
  | .dirE name listing =>
    if name ∈ skippedDirs then .ok ⟨[], [], []⟩
    else walkList pats (relJoin pre name) listing
  | .dirFail name msg =>
    if name ∈ skippedDirs then .ok ⟨[], [], []⟩
    else .error msg

/-- `readDirRecursive` over a listing, in order. -/
def walkList (pats : List Pattern) (pre : Str) : List FSEntry → Except Str WalkAcc
  | [] => .ok ⟨[], [], []⟩
  | e :: rest =>
    match walkEntry pats pre e with
    | .error m => .error m
    | .ok a =>
      match walkList pats pre rest with
      | .error m => .error m
      | .ok b => .ok ⟨a.files ++ b.files, a.findings ++ b.findings, a.warnings ++ b.warnings⟩
end

/-- The result object of `analyzeSkill` (the error result carries
`filesScanned 0` and an empty findings list). -/
structure SkillResult where
  error : Option Str
  filesScanned : Nat
  findings : List Finding
  warnings : List Str
  timestamp : Str
deriving Repr

/-- The `analyzeSkill` function of `src/analyzer.js`: a failing root
read, or a directory read error during the walk, becomes the
per-skill error result through the surrounding try/catch; otherwise
the accumulated files, findings and warnings are returned. -/
def analyzeSkill (pats : List Pattern) (now : Str)
    (root : Except Str (List FSEntry)) : SkillResult :=
  match root with
  | .error msg =>
    { error := some msg, filesScanned := 0, findings := [],
      warnings := [], timestamp := now }
  | .ok entries =>
    match walkList pats [] entries with
    | .error msg =>
      { error := some msg, filesScanned := 0, findings := [],
        warnings := [], timestamp := now }
    | .ok acc =>
      { error := none, filesScanned := acc.files.length,
        findings := acc.findings, warnings := acc.warnings, timestamp := now }

mutual
/-- Specification-side predicate: no unskipped directory read fails
anywhere in the entry. -/
def goodDirsE : FSEntry → Bool
  | .fileE _ _ => true
  | .dirE name listing => decide (name ∈ skippedDirs) || goodDirsL listing
  | .dirFail name _ => decide (name ∈ skippedDirs)

/-- Specification-side predicate over a listing. -/
def goodDirsL : List FSEntry → Bool
  | [] => true
  | e :: rest => goodDirsE e && goodDirsL rest
end

mutual
/-- Specification-side collector of the readable, unskipped files of
an entry with their relative paths. -/
def readableFilesE (pre : Str) : FSEntry → List (Str × Str)
  | .fileE name c =>
    if name ∈ skippedFiles then []
    else
      match c with
      | .ok content => [(relJoin pre name, content)]
      | .error _ => []
  | .dirE name listing =>
    if name ∈ skippedDirs then [] else readableFilesL (relJoin pre name) listing
  | .dirFail _ _ => []

/-- Specification-side collector over a listing. -/
def readableFilesL (pre : Str) : List FSEntry → List (Str × Str)
  | [] => []
  | e :: rest => readableFilesE pre e ++ readableFilesL pre rest
end

mutual
/-- Specification-side collector of the warnings expected for the
unreadable files of an entry. -/
def expectedWarningsE (pre : Str) : FSEntry → List Str
  | .fileE name c =>
    if name ∈ skippedFiles then []
    else
      match c with
      | .ok _ => []
      | .error e => if e.code = "EISDIR" then [] else [warnMsg (relJoin pre name) e]
  | .dirE name listing =>
    if name ∈ skippedDirs then [] else expectedWarningsL (relJoin pre name) listing
  | .dirFail _ _ => []

/-- Specification-side collector over a listing. -/
def expectedWarningsL (pre : Str) : List FSEntry → List Str
  | [] => []
  | e :: rest => expectedWarningsE pre e ++ expectedWarningsL pre rest
end

/-- A concrete scanned tree with one unreadable file, one readable
file, a skipped version-control directory and a skipped unreadable
directory, used to witness claim C8. -/
def demoTree : List FSEntry :=
  [ .fileE ("SKILL.md").data (.error ⟨"EACCES", ("permission denied").data⟩),
    .fileE ("notes.txt").data (.ok ("hello world").data),
    .dirE (".git").data [ .fileE ("config").data (.ok ("x").data) ],
    .dirFail (".svn").data ("boom").data ]

lemma countSevs_eq_filter (fs : List Finding) :
    countSevs fs =
      (severityCount "CRITICAL" fs, severityCount "HIGH" fs,
       severityCount "MEDIUM" fs, severityCount "LOW" fs) := by
  induction fs with
  | nil => rfl
  | cons f fs ih =>
    simp only [countSevs, ih, severityCount, List.filter]
    by_cases hc : f.severity = "CRITICAL"
    · simp [hc]
    · by_cases hh : f.severity = "HIGH"
      · simp [hc, hh]
      · by_cases hm : f.severity = "MEDIUM"
        · simp [hc, hh, hm]
        · by_cases hl : f.severity = "LOW"
          · simp [hc, hh, hm, hl]
          · simp [hc, hh, hm, hl]

/-- Claim C3: for every findings list, `calculateScore` returns
`score = max 0 (100 - (30 * #CRITICAL + 15 * #HIGH + 5 * #MEDIUM + 0 * #LOW))`
counted over the findings' (effective) severity strings, the score
always lies between 0 and 100, and the empty findings list yields
score 100 with grade A. -/
theorem thm_c3_score_formula :
    ∀ fs : List Finding,
      (calculateScore fs).score =
        max 0 (100 - (30 * (severityCount "CRITICAL" fs : Int) +
                      15 * (severityCount "HIGH" fs : Int) +
                      5 * (severityCount "MEDIUM" fs : Int) +
                      0 * (severityCount "LOW" fs : Int))) ∧
      0 ≤ (calculateScore fs).score ∧ (calculateScore fs).score ≤ 100 ∧
      (calculateScore []).score = 100 ∧ (calculateScore []).grade = "A" := by
  intro fs
  have hc := countSevs_eq_filter fs
  refine ⟨?_, ?_, ?_, by decide, by decide⟩
  · simp only [calculateScore, hc]
  · simp only [calculateScore, hc]
    exact le_max_left 0 _
  · simp only [calculateScore, hc]
    have : (100 : Int) - (30 * (severityCount "CRITICAL" fs : Int) +
        15 * (severityCount "HIGH" fs : Int) +
        5 * (severityCount "MEDIUM" fs : Int) +
        0 * (severityCount "LOW" fs : Int)) ≤ 100 := by
      have h1 : (0 : Int) ≤ 30 * (severityCount "CRITICAL" fs : Int) := by positivity
      have h2 : (0 : Int) ≤ 15 * (severityCount "HIGH" fs : Int) := by positivity
      have h3 : (0 : Int) ≤ 5 * (severityCount "MEDIUM" fs : Int) := by positivity
      have h4 : (0 : Int) ≤ 0 * (severityCount "LOW" fs : Int) := by positivity
      omega
    omega

/-- Claim C4: on every score in 0..100 the grade is the fixed step
function (A at 90 and above, B at 80, C at 70, D at 60, else F) and
the color band is obtained from the grade alone through the map
A to green, B to yellow, C and D to orange, F to red; in
`calculateScore` the color field is exactly the color of the grade
field. -/
theorem thm_c4_grade_thresholds :
    (∀ s : Int, 0 ≤ s → s ≤ 100 →
      ((getGrade s = "A" ↔ 90 ≤ s) ∧
       (getGrade s = "B" ↔ 80 ≤ s ∧ s < 90) ∧
       (getGrade s = "C" ↔ 70 ≤ s ∧ s < 80) ∧
       (getGrade s = "D" ↔ 60 ≤ s ∧ s < 70) ∧
       (getGrade s = "F" ↔ s < 60))) ∧
    colorMap "A" = some "green" ∧ colorMap "B" = some "yellow" ∧
    colorMap "C" = some "orange" ∧ colorMap "D" = some "orange" ∧
    colorMap "F" = some "red" ∧
    (∀ fs : List Finding, (calculateScore fs).color = colorMap (calculateScore fs).grade) := by
  refine ⟨?_, by decide, by decide, by decide, by decide, by decide, ?_⟩
  · intro s _ _
    unfold getGrade
    split_ifs with h1 h2 h3 h4 <;>
      refine ⟨?_, ?_, ?_, ?_, ?_⟩ <;> simp_all <;> omega
  · intro fs
    simp only [calculateScore]

/-- Witness for claim C4 at the concrete score 85. -/
theorem witness_c4 :
    (0 : Int) ≤ 85 ∧ (85 : Int) ≤ 100 ∧ getGrade 85 = "B" := by
  refine ⟨by decide, by decide, ?_⟩
  exact ((thm_c4_grade_thresholds.1 85 (by decide) (by decide)).2.1).2 ⟨by decide, by decide⟩

lemma countSevs_append_unknown (fs : List Finding) (f : Finding)
    (h : f.severity ∉ knownSeverities) :
    countSevs (fs ++ [f]) = countSevs fs := by
  induction fs with
  | nil =>
    simp only [knownSeverities, List.mem_cons, List.not_mem_nil, or_false] at h
    push_neg at h
    obtain ⟨h1, h2, h3, h4⟩ := h
    simp only [List.nil_append, countSevs, if_neg h1, if_neg h2, if_neg h3, if_neg h4]
  | cons g gs ih =>
    simp only [List.cons_append, countSevs, List.append_eq, ih]

/-- Claim C10: a finding whose severity string is not one of
CRITICAL, HIGH, MEDIUM, LOW contributes no deduction and is excluded
from the severity counts and from the deduction breakdown, yet still
increments `totalFindings`; in particular a single such finding
yields score 100 and grade A with `totalFindings = 1`. -/
theorem thm_c10_unknown_severity :
    ∀ (fs : List Finding) (f : Finding), f.severity ∉ knownSeverities →
      ((calculateScore (fs ++ [f])).score = (calculateScore fs).score ∧
       (calculateScore (fs ++ [f])).grade = (calculateScore fs).grade ∧
       (calculateScore (fs ++ [f])).countCritical = (calculateScore fs).countCritical ∧
       (calculateScore (fs ++ [f])).countHigh = (calculateScore fs).countHigh ∧
       (calculateScore (fs ++ [f])).countMedium = (calculateScore fs).countMedium ∧
       (calculateScore (fs ++ [f])).countLow = (calculateScore fs).countLow ∧
       (calculateScore (fs ++ [f])).deductions = (calculateScore fs).deductions ∧
       (calculateScore (fs ++ [f])).totalFindings = fs.length + 1) ∧
      ((calculateScore [f]).score = 100 ∧ (calculateScore [f]).grade = "A" ∧
       (calculateScore [f]).totalFindings = 1) := by
  intro fs f h
  have hcs := countSevs_append_unknown fs f h
  constructor
  · simp only [calculateScore, hcs]
    rcases hx : countSevs fs with ⟨c, h1, m, l⟩
    simp [List.length_append]
  · have h0 := countSevs_append_unknown [] f h
    simp only [List.nil_append] at h0
    simp only [calculateScore, h0]
    refine ⟨by decide, by decide, rfl⟩

/-- Witness for claim C10: a finding with the unknown severity
string WARN leaves a clean score of 100, grade A, one total finding. -/
theorem witness_c10 :
    bogusFinding.severity ∉ knownSeverities ∧
    (calculateScore [bogusFinding]).score = 100 ∧
    (calculateScore [bogusFinding]).grade = "A" ∧
    (calculateScore [bogusFinding]).totalFindings = 1 := by
  have h : bogusFinding.severity ∉ knownSeverities := by decide
  have := thm_c10_unknown_severity [] bogusFinding h
  exact ⟨h, this.2.1, this.2.2.1, this.2.2.2⟩

lemma startsSeq_iff (p : Str) : ∀ s : Str, startsSeq p s = true ↔ ∃ t, s = p ++ t := by
  induction p with
  | nil =>
    intro s
    constructor
    · intro _
      exact ⟨s, rfl⟩
    · intro _
      cases s <;> simp [startsSeq, List.isPrefixOf]
  | cons c cs ih =>
    intro s
    cases s with
    | nil =>
      constructor
      · intro h
        exact absurd h (by simp [startsSeq, List.isPrefixOf])
      · rintro ⟨t, ht⟩
        exact absurd ht (by simp)
    | cons d ds =>
      constructor
      · intro h
        have h' : (c == d) = true ∧ List.isPrefixOf cs ds = true := by
          simpa [startsSeq, List.isPrefixOf, Bool.and_eq_true] using h
        obtain ⟨t, rfl⟩ := (ih ds).mp h'.2
        have hcd : c = d := by simpa using h'.1
        exact ⟨t, by simp [hcd]⟩
      · rintro ⟨t, ht⟩
        injection ht with h1 h2
        subst h1
        have : startsSeq cs ds = true := (ih ds).mpr ⟨t, h2⟩
        simpa [startsSeq, List.isPrefixOf] using this

lemma containsSeq_iff (p : Str) : ∀ s : Str, containsSeq p s = true ↔ ∃ a b, s = a ++ p ++ b := by
  intro s
  induction s with
  | nil =>
    simp only [containsSeq, startsSeq_iff]
    constructor
    · rintro ⟨t, ht⟩
      exact ⟨[], t, by simpa using ht⟩
    · rintro ⟨a, b, hab⟩
      have ha : a = [] := by
        cases a with
        | nil => rfl
        | cons x xs => exact absurd hab (by simp)
      subst ha
      exact ⟨b, by simpa using hab⟩
  | cons c rest ih =>
    simp only [containsSeq, Bool.or_eq_true, startsSeq_iff, ih]
    constructor
    · rintro (⟨t, ht⟩ | ⟨a, b, hab⟩)
      · exact ⟨[], t, by simpa using ht⟩
      · exact ⟨c :: a, b, by simp [hab]⟩
    · rintro ⟨a, b, hab⟩
      cases a with
      | nil =>
        exact Or.inl ⟨b, by simpa using hab⟩
      | cons x xs =>
        simp only [List.cons_append, List.cons.injEq] at hab
        exact Or.inr ⟨xs, b, by simp [hab.2]⟩

/-- Claim C7 counterexample: the path TODO.js has the conventional
non-code artifact name todo as its case-insensitive
extension-stripped base name, and the path docs has the
documentation-intent directory name docs as its only path segment,
yet `isDocFile` classifies neither as documentation. -/
theorem cex_c7_doc_classifier :
    lowerAll (basenameNoExt (("TODO.js").data)) = ("todo").data ∧
    lowerAll (basenameNoExt (("TODO.js").data)) ∈ conventionalDocNames ∧
    isDocFile (("TODO.js").data) = false ∧
    ("docs/").data ∈ docDirs ∧
    isDocFile (("docs").data) = false := by
  refine ⟨by decide, by decide, by decide, by decide, by decide⟩

/-- Claim C7 (amended): the classifier is a total function, and it
classifies as documentation every path whose extension (the text
after the last dot of the whole path, the whole path when dotless)
is one of the documentation extensions, every path in which a
documentation-intent directory occurs as a non-final
separator-delimited segment of the backslash-normalized lowercased
path, and every path whose case-insensitive base name taken whole
(without stripping any extension) is a conventional non-code
artifact name. -/
theorem thm_c7_doc_classifier_amended :
    ∀ f : Str,
      (extOf f ∈ docExtensions → isDocFile f = true) ∧
      (∀ d, d ∈ docDirs →
        (∃ a b, lowerAll (normalizeSlashes f) = a ++ (d ++ b) ∧
          (a = [] ∨ ∃ a2, a = a2 ++ ['/'])) →
        isDocFile f = true) ∧
      (basenameLower f ∈ conventionalDocNames → isDocFile f = true) := by
  intro f
  refine ⟨?_, ?_, ?_⟩
  · intro hx
    simp only [isDocFile, if_pos hx]
  · rintro d hd ⟨a, b, hab, hcase⟩
    by_cases hx : extOf f ∈ docExtensions
    · simp only [isDocFile, if_pos hx]
    · have hone : (startsSeq d (lowerAll (normalizeSlashes f)) ||
          containsSeq ('/' :: d) (lowerAll (normalizeSlashes f))) = true := by
        rcases hcase with rfl | ⟨a2, rfl⟩
        · apply Bool.or_eq_true_iff.mpr
          exact Or.inl ((startsSeq_iff d _).mpr ⟨b, by simpa using hab⟩)
        · apply Bool.or_eq_true_iff.mpr
          refine Or.inr ((containsSeq_iff ('/' :: d) _).mpr ⟨a2, b, ?_⟩)
          rw [hab]
          simp
      have hany : (docDirs.any (fun d => startsSeq d (lowerAll (normalizeSlashes f)) ||
          containsSeq ('/' :: d) (lowerAll (normalizeSlashes f)))) = true :=
        List.any_eq_true.mpr ⟨d, hd, hone⟩
      simp only [isDocFile, if_neg hx]
      rw [if_pos hany]
  · intro hb
    by_cases hx : extOf f ∈ docExtensions
    · simp only [isDocFile, if_pos hx]
    · simp only [isDocFile, if_neg hx]
      by_cases hany : (docDirs.any (fun d => startsSeq d (lowerAll (normalizeSlashes f)) ||
          containsSeq ('/' :: d) (lowerAll (normalizeSlashes f)))) = true
      · rw [if_pos hany]
      · rw [if_neg hany]
        exact decide_eq_true hb

/-- Witness for claim C7 at three concrete paths: an extension hit,
a documentation-directory hit and a conventional-basename hit. -/
theorem witness_c7 :
    isDocFile (("notes.md").data) = true ∧
    isDocFile (("plans/setup.sh").data) = true ∧
    isDocFile (("LICENSE").data) = true := by
  refine ⟨?_, ?_, ?_⟩
  · exact (thm_c7_doc_classifier_amended (("notes.md").data)).1 (by decide)
  · exact (thm_c7_doc_classifier_amended (("plans/setup.sh").data)).2.1
      (("plans/").data) (by decide)
      ⟨[], ("setup.sh").data, by decide, Or.inl rfl⟩
  · exact (thm_c7_doc_classifier_amended (("LICENSE").data)).2.2 (by decide)

lemma stopCond_iff (maxF : Nat) (ddp : Bool) (count : Nat) :
    (maxF ≤ count ∨ (ddp = true ∧ 1 ≤ count)) ↔ effCap maxF ddp ≤ count := by
  unfold effCap
  cases ddp <;> simp
  omega

lemma acceptLoop_snd (maxF : Nat) (ddp : Bool) :
    ∀ (ps : List (Finding × Str)) (count : Nat),
      (acceptLoop maxF ddp count ps).2 = ps.take (effCap maxF ddp - count) := by
  intro ps
  induction ps with
  | nil =>
    intro count
    simp [acceptLoop]
  | cons p ps ih =>
    intro count
    by_cases h1 : maxF ≤ count
    · have hc : effCap maxF ddp ≤ count := (stopCond_iff maxF ddp count).mp (Or.inl h1)
      have : effCap maxF ddp - count = 0 := by omega
      simp [acceptLoop, h1, this]
    · by_cases h2 : ddp = true ∧ 1 ≤ count
      · have hc : effCap maxF ddp ≤ count := (stopCond_iff maxF ddp count).mp (Or.inr h2)
        have hz : effCap maxF ddp - count = 0 := by omega
        simp only [acceptLoop, if_neg h1]
        rw [if_pos (by simp [h2.1, h2.2]), hz]
        simp
      · have hc : ¬ effCap maxF ddp ≤ count := by
          intro hl
          exact absurd ((stopCond_iff maxF ddp count).mpr hl) (by tauto)
        have hn : effCap maxF ddp - count = (effCap maxF ddp - (count + 1)) + 1 := by omega
        have hdd : (ddp && decide (1 ≤ count)) = false := by
          cases ddp
          · simp
          · simp only [Bool.true_and, decide_eq_false_iff_not]
            intro hx
            exact h2 ⟨rfl, hx⟩
        simp only [acceptLoop, if_neg h1, hdd, Bool.false_eq_true, if_neg (by simp : ¬ False)]
        rw [ih (count + 1), hn]
        simp [List.take_succ_cons]

lemma acceptLoop_fst (maxF : Nat) (ddp : Bool) :
    ∀ (ps : List (Finding × Str)) (count : Nat),
      (acceptLoop maxF ddp count ps).1 = count + (acceptLoop maxF ddp count ps).2.length := by
  intro ps
  induction ps with
  | nil =>
    intro count
    simp [acceptLoop]
  | cons p ps ih =>
    intro count
    by_cases h1 : maxF ≤ count
    · simp [acceptLoop, h1]
    · by_cases h2 : (ddp && decide (1 ≤ count)) = true
      · simp only [acceptLoop, if_neg h1]
        rw [if_pos h2]
        simp
      · simp only [acceptLoop, if_neg h1]
        rw [if_neg (by simp [h2])]
        rcases hx : acceptLoop maxF ddp (count + 1) ps with ⟨c, acc⟩
        have hthis := ih (count + 1)
        rw [hx] at hthis
        simp only [List.length_cons]
        simp only at hthis
        omega

lemma regexLoop_snd (maxF : Nat) (ddp : Bool) :
    ∀ (blocks : List (List (Finding × Str))) (count : Nat),
      (regexLoop maxF ddp count blocks).2 = blocks.flatten.take (effCap maxF ddp - count) := by
  intro blocks
  induction blocks with
  | nil =>
    intro count
    simp [regexLoop]
  | cons blk rest ih =>
    intro count
    by_cases h1 : maxF ≤ count
    · have hc : effCap maxF ddp ≤ count := (stopCond_iff maxF ddp count).mp (Or.inl h1)
      have : effCap maxF ddp - count = 0 := by omega
      simp [regexLoop, h1, this]
    · by_cases h2 : ddp = true ∧ 1 ≤ count
      · have hc : effCap maxF ddp ≤ count := (stopCond_iff maxF ddp count).mp (Or.inr h2)
        have hz : effCap maxF ddp - count = 0 := by omega
        simp only [regexLoop, if_neg h1]
        rw [if_pos (by simp [h2.1, h2.2]), hz]
        simp
      · have hdd : (ddp && decide (1 ≤ count)) = false := by
          cases ddp
          · simp
          · simp only [Bool.true_and, decide_eq_false_iff_not]
            intro hx
            exact h2 ⟨rfl, hx⟩
        simp only [regexLoop, if_neg h1, hdd, Bool.false_eq_true, if_neg (by simp : ¬ False)]
        rcases ha : acceptLoop maxF ddp count blk with ⟨c1, a1⟩
        rcases hr : regexLoop maxF ddp c1 rest with ⟨c2, a2⟩
        have hs1 : a1 = blk.take (effCap maxF ddp - count) := by
          have := acceptLoop_snd maxF ddp blk count
          rw [ha] at this
          exact this
        have hf1 : c1 = count + a1.length := by
          have := acceptLoop_fst maxF ddp blk count
          rw [ha] at this
          exact this
        have hs2 : a2 = rest.flatten.take (effCap maxF ddp - c1) := by
          have := ih c1
          rw [hr] at this
          exact this
        simp only
        rw [hs1, hs2, hf1, hs1]
        rw [List.flatten_cons, List.take_append_eq_append_take]
        congr 1
        congr 1
        simp only [List.length_take]
        omega

lemma regexLoop_cap (maxF : Nat) (ddp : Bool) (blocks : List (List (Finding × Str))) :
    (regexLoop maxF ddp 0 blocks).2.length ≤ effCap maxF ddp := by
  rw [regexLoop_snd]
  simp only [Nat.sub_zero, List.length_take]
  omega

lemma perPatternPairs_eq (fname content : Str) (lines : List Str) (pat : Pattern)
    (eff : String) (heff : getEffectiveSeverity pat fname = some eff) :
    perPatternPairs fname content lines pat =
      ((pat.patterns.map
        (fun r => (findMatches content r).map (matchFinding pat eff fname content lines))).flatten).take
        (if pat.dedup then 1 else 3) := by
  unfold perPatternPairs
  rw [heff]
  show (regexLoop maxFindingsPerPattern pat.dedup 0
    (pat.patterns.map
      (fun r => (findMatches content r).map (matchFinding pat eff fname content lines)))).2 = _
  rw [regexLoop_snd]
  have : effCap maxFindingsPerPattern pat.dedup - 0 = if pat.dedup then 1 else 3 := by
    unfold effCap maxFindingsPerPattern
    cases pat.dedup <;> simp
  rw [this]

lemma perPatternPairs_skip (fname content : Str) (lines : List Str) (pat : Pattern)
    (heff : getEffectiveSeverity pat fname = none) :
    perPatternPairs fname content lines pat = [] := by
  unfold perPatternPairs
  rw [heff]

lemma mem_perPatternPairs (fname content : Str) (lines : List Str) (pat : Pattern)
    (fl : Finding × Str) (h : fl ∈ perPatternPairs fname content lines pat) :
    ∃ eff, getEffectiveSeverity pat fname = some eff ∧
      fl.1.patternId = pat.id ∧ fl.1.severity = eff ∧
      fl.1.category = pat.category ∧ fl.1.description = pat.description := by
  rcases heff : getEffectiveSeverity pat fname with _ | eff
  · rw [perPatternPairs_skip fname content lines pat heff] at h
    exact absurd h (List.not_mem_nil fl)
  · refine ⟨eff, rfl, ?_⟩
    rw [perPatternPairs_eq fname content lines pat eff heff] at h
    have h2 := List.take_subset _ _ h
    obtain ⟨blk, hblk, hfl⟩ := List.mem_flatten.mp h2
    obtain ⟨r, _, rfl⟩ := List.mem_map.mp hblk
    obtain ⟨m, _, rfl⟩ := List.mem_map.mp hfl
    exact ⟨rfl, rfl, rfl, rfl⟩

lemma mem_analyzeFilePairs (pats : List Pattern) (fname content : Str)
    (fl : Finding × Str) (h : fl ∈ analyzeFilePairs pats fname content) :
    ∃ q ∈ pats, fl ∈ perPatternPairs fname content (splitOnChar '\n' content) q := by
  unfold analyzeFilePairs at h
  obtain ⟨blk, hblk, hfl⟩ := List.mem_flatten.mp h
  obtain ⟨q, hq, rfl⟩ := List.mem_map.mp hblk
  exact ⟨q, hq, hfl⟩

lemma mem_analyzeFile (pats : List Pattern) (fname content : Str)
    (f : Finding) (h : f ∈ analyzeFile pats fname content) :
    ∃ q ∈ pats, ∃ eff, getEffectiveSeverity q fname = some eff ∧
      f.patternId = q.id ∧ f.severity = eff := by
  unfold analyzeFile at h
  obtain ⟨fl, hfl, rfl⟩ := List.mem_map.mp h
  obtain ⟨q, hq, hmem⟩ := mem_analyzeFilePairs pats fname content fl hfl
  obtain ⟨eff, heff, hid, hsev, _⟩ := mem_perPatternPairs fname content _ q fl hmem
  exact ⟨q, hq, eff, heff, hid, hsev⟩

lemma pattern_id_unique (pats : List Pattern) (p q : Pattern)
    (hp : p ∈ pats) (hq : q ∈ pats) (hnd : (pats.map Pattern.id).Nodup)
    (hid : p.id = q.id) : p = q :=
  List.inj_on_of_nodup_map hnd hp hq hid

/-- Claim C2: a code-only signature yields zero findings in a
documentation file; in a documentation file a signature with a doc
severity override yields findings only at the override severity;
otherwise all of its findings carry the base severity. -/
theorem thm_c2_context_eligibility :
    ∀ (pats : List Pattern) (pat : Pattern) (fname content : Str),
      pat ∈ pats → (pats.map Pattern.id).Nodup →
      ((pat.codeOnly = true → isDocFile fname = true →
        (analyzeFile pats fname content).filter (fun f => f.patternId = pat.id) = []) ∧
       (∀ ov, pat.codeOnly = false → pat.docSeverityOverride = some ov →
        isDocFile fname = true →
        ∀ f ∈ analyzeFile pats fname content, f.patternId = pat.id → f.severity = ov) ∧
       ((isDocFile fname = false ∨ pat.docSeverityOverride = none) →
        ∀ f ∈ analyzeFile pats fname content, f.patternId = pat.id →
          f.severity = pat.severity)) := by
  intro pats pat fname content hmem hnd
  have key : ∀ f ∈ analyzeFile pats fname content, f.patternId = pat.id →
      getEffectiveSeverity pat fname = some f.severity := by
    intro f hf hid
    obtain ⟨q, hq, eff, heff, hqid, hsev⟩ := mem_analyzeFile pats fname content f hf
    have : q = pat := pattern_id_unique pats q pat hq hmem hnd (by rw [← hqid, hid])
    subst this
    rw [heff, hsev]
  refine ⟨?_, ?_, ?_⟩
  · intro hco hdoc
    have heff : getEffectiveSeverity pat fname = none := by
      unfold getEffectiveSeverity
      rw [if_pos (by simp [hco, hdoc])]
    rw [List.filter_eq_nil_iff]
    intro f hf hfl
    have := key f hf (by simpa using hfl)
    rw [heff] at this
    exact absurd this (by simp)
  · intro ov hco hov hdoc f hf hid
    have heff : getEffectiveSeverity pat fname = some ov := by
      unfold getEffectiveSeverity
      rw [if_neg (by simp [hco]), if_pos (by simp [hov, hdoc])]
      exact hov
    have := key f hf hid
    rw [heff] at this
    exact (Option.some.injEq _ _ ▸ this).symm
  · intro hcase f hf hid
    have heff : getEffectiveSeverity pat fname = some pat.severity := by
      unfold getEffectiveSeverity
      rcases hcase with hdoc | hov
      · rw [if_neg (by simp [hdoc]), if_neg (by simp [hdoc])]
      · by_cases hdoc : isDocFile fname = true
        · by_cases hco : pat.codeOnly = true
          · -- skip case: vacuous through key, derived below
            rw [if_pos (by simp [hco, hdoc])]
            have := key f hf hid
            rw [show getEffectiveSeverity pat fname = none from by
              unfold getEffectiveSeverity
              rw [if_pos (by simp [hco, hdoc])]] at this
            exact absurd this (by simp)
          · rw [if_neg (by simp [Bool.not_eq_true] at hco; simp [hco]),
              if_neg (by simp [hov])]
        · rw [if_neg (by simp [Bool.not_eq_true] at hdoc; simp [hdoc]),
            if_neg (by simp [Bool.not_eq_true] at hdoc; simp [hdoc])]
    have := key f hf hid
    rw [heff] at this
    exact (Option.some.injEq _ _ ▸ this).symm

/-- Witness for claim C2: the concrete code-only probe signature on
the documentation file README.md yields zero findings although its
literal expression occurs in the content. -/
theorem witness_c2 :
    probePatternA ∈ [probePatternA] ∧
    ([probePatternA].map Pattern.id).Nodup ∧
    probePatternA.codeOnly = true ∧
    isDocFile (("README.md").data) = true ∧
    (analyzeFile [probePatternA] (("README.md").data)
      (("child_process").data)).filter (fun f => f.patternId = probePatternA.id) = [] := by
  have hmem : probePatternA ∈ [probePatternA] := List.mem_singleton.mpr rfl
  have hnd : ([probePatternA].map Pattern.id).Nodup := by simp
  refine ⟨hmem, hnd, rfl, by decide, ?_⟩
  exact (thm_c2_context_eligibility [probePatternA] probePatternA
    (("README.md").data) (("child_process").data) hmem hnd).1 rfl (by decide)

lemma findMatchesAux_index_ge (r : Rgx) (content : Str)
    (hwb : ∀ pos m, r.exec content pos = some m → pos ≤ m.index ∧ m.text ≠ []) :
    ∀ (fuel pos : Nat) (m : JsMatch), m ∈ findMatchesAux r content fuel pos → pos ≤ m.index := by
  intro fuel
  induction fuel with
  | zero =>
    intro pos m h
    exact absurd h (List.not_mem_nil m)
  | succ fuel ih =>
    intro pos m h
    simp only [findMatchesAux] at h
    rcases hx : r.exec content pos with _ | m0
    · rw [hx] at h
      exact absurd h (List.not_mem_nil m)
    · rw [hx] at h
      rcases List.mem_cons.mp h with rfl | hmem
      · exact (hwb pos m hx).1
      · have h1 := ih (m0.index + m0.text.length) m hmem
        have h0 := hwb pos m0 hx
        omega

lemma findMatchesAux_chain (r : Rgx) (content : Str)
    (hwb : ∀ pos m, r.exec content pos = some m → pos ≤ m.index ∧ m.text ≠ []) :
    ∀ (fuel pos : Nat),
      List.Chain' (fun a b : JsMatch => a.index < b.index) (findMatchesAux r content fuel pos) := by
  intro fuel
  induction fuel with
  | zero =>
    intro pos
    simp [findMatchesAux]
  | succ fuel ih =>
    intro pos
    simp only [findMatchesAux]
    rcases hx : r.exec content pos with _ | m0
    · simp
    · apply List.chain'_cons'.mpr
      refine ⟨?_, ih _⟩
      intro b hb
      have hmem : b ∈ findMatchesAux r content fuel (m0.index + m0.text.length) :=
        List.mem_of_mem_head? hb
      have hge := findMatchesAux_index_ge r content hwb fuel _ b hmem
      have h0 := hwb pos m0 hx
      have hlen : 1 ≤ m0.text.length := List.length_pos.mpr h0.2
      omega

lemma litExec_wellBehaved (pat : Str) (hp : pat ≠ []) (content : Str) :
    ∀ pos m, (litRgx pat).exec content pos = some m → pos ≤ m.index ∧ m.text ≠ [] := by
  intro pos m h
  simp only [litRgx, litExec, Option.map_eq_some'] at h
  obtain ⟨i, hi, rfl⟩ := h
  have hmem : i ∈ (List.range (content.length + 1)).filter
      (fun i => decide (pos ≤ i) && startsSeq pat (content.drop i)) :=
    List.mem_of_mem_head? hi
  have hprop := (List.mem_filter.mp hmem).2
  simp only [Bool.and_eq_true, decide_eq_true_eq] at hprop
  exact ⟨hprop.1, hp⟩

lemma perPatternPairs_length_le (fname content : Str) (lines : List Str) (pat : Pattern) :
    (perPatternPairs fname content lines pat).length ≤ if pat.dedup then 1 else 3 := by
  rcases heff : getEffectiveSeverity pat fname with _ | eff
  · rw [perPatternPairs_skip fname content lines pat heff]
    simp
  · rw [perPatternPairs_eq fname content lines pat eff heff]
    simp only [List.length_take]
    exact min_le_left _ _

lemma analyzeFile_cons (q : Pattern) (rest : List Pattern) (fname content : Str) :
    analyzeFile (q :: rest) fname content =
      (perPatternPairs fname content (splitOnChar '\n' content) q).map Prod.fst ++
        analyzeFile rest fname content := by
  unfold analyzeFile analyzeFilePairs
  simp [List.map_append]

lemma analyzeFile_filter_other (rest : List Pattern) (fname content : Str) (pid : String)
    (hno : pid ∉ rest.map Pattern.id) :
    (analyzeFile rest fname content).filter (fun f => f.patternId = pid) = [] := by
  rw [List.filter_eq_nil_iff]
  intro f hf hfl
  obtain ⟨q, hq, eff, _, hid, _⟩ := mem_analyzeFile rest fname content f hf
  have : pid = q.id := by
    have := of_decide_eq_true hfl
    rw [← this, hid]
  exact hno (this ▸ List.mem_map.mpr ⟨q, hq, rfl⟩)

lemma analyzeFile_filter_le (pats : List Pattern) (pat : Pattern) (fname content : Str)
    (hmem : pat ∈ pats) (hnd : (pats.map Pattern.id).Nodup) :
    ((analyzeFile pats fname content).filter (fun f => f.patternId = pat.id)).length ≤
      if pat.dedup then 1 else 3 := by
  induction pats with
  | nil => cases hmem
  | cons q rest ih =>
    rw [List.map_cons] at hnd
    have hnd' := List.nodup_cons.mp hnd
    rw [analyzeFile_cons, List.filter_append, List.length_append]
    rcases List.mem_cons.mp hmem with rfl | hrest
    · have hzero : (analyzeFile rest fname content).filter (fun f => f.patternId = pat.id) = [] :=
        analyzeFile_filter_other rest fname content pat.id hnd'.1
      rw [hzero]
      simp only [List.length_nil, Nat.add_zero]
      calc ((List.map Prod.fst (perPatternPairs fname content (splitOnChar '\n' content) pat)).filter
              (fun f => f.patternId = pat.id)).length
          ≤ (List.map Prod.fst (perPatternPairs fname content (splitOnChar '\n' content) pat)).length :=
            List.length_filter_le _ _
        _ = (perPatternPairs fname content (splitOnChar '\n' content) pat).length :=
            List.length_map _ _
        _ ≤ if pat.dedup then 1 else 3 := perPatternPairs_length_le fname content _ pat
    · have hq : q.id ≠ pat.id := by
        intro he
        exact hnd'.1 (he ▸ List.mem_map.mpr ⟨pat, hrest, rfl⟩)
      have hzero : ((perPatternPairs fname content (splitOnChar '\n' content) q).map
          Prod.fst).filter (fun f => f.patternId = pat.id) = [] := by
        rw [List.filter_eq_nil_iff]
        intro f hf hfl
        obtain ⟨fl, hfl2, rfl⟩ := List.mem_map.mp hf
        obtain ⟨eff, _, hid, _⟩ := mem_perPatternPairs fname content _ q fl hfl2
        exact hq (by rw [← hid]; exact of_decide_eq_true hfl)
      rw [hzero]
      simp only [List.length_nil, Nat.zero_add]
      exact ih hrest hnd'.2

/-- Claim C5: each signature is capped at 3 accepted matches per
file (1 when `dedup` is set) regardless of occurrence count; the
accepted block equals the truncation of the concatenation of the
expressions' match lists in expression order, each in the position
order delivered by the repeated-exec search (strictly increasing
positions for any well-behaved expression); the cap also bounds the
findings the signature contributes to `analyzeFile`. -/
theorem thm_c5_caps_order :
    ∀ (fname content : Str) (pat : Pattern),
      (perPatternPairs fname content (splitOnChar '\n' content) pat).length ≤ 3 ∧
      (pat.dedup = true →
        (perPatternPairs fname content (splitOnChar '\n' content) pat).length ≤ 1) ∧
      (∀ eff, getEffectiveSeverity pat fname = some eff →
        perPatternPairs fname content (splitOnChar '\n' content) pat =
          ((pat.patterns.map (fun r => (findMatches content r).map
            (matchFinding pat eff fname content (splitOnChar '\n' content)))).flatten).take
            (if pat.dedup then 1 else 3)) ∧
      (∀ r : Rgx, (∀ pos m, r.exec content pos = some m → pos ≤ m.index ∧ m.text ≠ []) →
        List.Chain' (fun a b : JsMatch => a.index < b.index) (findMatches content r)) ∧
      (∀ pats, pat ∈ pats → (pats.map Pattern.id).Nodup →
        ((analyzeFile pats fname content).filter (fun f => f.patternId = pat.id)).length ≤
          if pat.dedup then 1 else 3) := by
  intro fname content pat
  refine ⟨?_, ?_, ?_, ?_, ?_⟩
  · have := perPatternPairs_length_le fname content (splitOnChar '\n' content) pat
    split at this <;> omega
  · intro hd
    have := perPatternPairs_length_le fname content (splitOnChar '\n' content) pat
    rw [if_pos hd] at this
    exact this
  · intro eff heff
    exact perPatternPairs_eq fname content _ pat eff heff
  · intro r hwb
    exact findMatchesAux_chain r content hwb _ 0
  · intro pats hmem hnd
    exact analyzeFile_filter_le pats pat fname content hmem hnd

/-- Witness for claim C5: the concrete dedup probe signature on a
content holding several literal occurrences accepts exactly one
match, and the literal expression is well-behaved so its matches
come in strictly increasing positions. -/
theorem witness_c5 :
    probePatternB.dedup = true ∧
    (perPatternPairs (("f.js").data) (("aaaa b").data)
      (splitOnChar '\n' (("aaaa b").data)) probePatternB).length ≤ 1 ∧
    (∀ pos m, (litRgx (("aa").data)).exec (("aaaa b").data) pos = some m →
      pos ≤ m.index ∧ m.text ≠ []) ∧
    List.Chain' (fun a b : JsMatch => a.index < b.index)
      (findMatches (("aaaa b").data) (litRgx (("aa").data))) := by
  have hwb := litExec_wellBehaved (("aa").data) (by decide) (("aaaa b").data)
  have h := thm_c5_caps_order (("f.js").data) (("aaaa b").data) probePatternB
  exact ⟨rfl, h.2.1 rfl, hwb, h.2.2.2.1 (litRgx (("aa").data)) hwb⟩

lemma findAllowToken_mem (lst : List Str) (line : Str) (t : Str)
    (h : findAllowToken lst line = some t) :
    t ∈ lst ∧ containsWholeToken t line = true := by
  unfold findAllowToken at h
  have h1 := List.mem_of_find?_eq_some h
  have h2 := List.find?_some h
  exact ⟨h1, h2⟩

lemma findAllowToken_isSome (lst : List Str) (line : Str)
    (h : ∃ t ∈ lst, containsWholeToken t line = true) :
    ∃ t, findAllowToken lst line = some t := by
  obtain ⟨t, ht, hc⟩ := h
  rcases hx : findAllowToken lst line with _ | t'
  · unfold findAllowToken at hx
    exact absurd hc (by simpa using List.find?_eq_none.mp hx t ht)
  · exact ⟨t', rfl⟩

lemma resolveAllowlist_spec (line : Str)
    (h : ∃ t, t ∈ knownSafeBinaries ++ knownSafeDomains ∧ containsWholeToken t line = true) :
    ∃ tok reason, resolveAllowlist line = some (tok, reason) ∧
      containsWholeToken tok line = true ∧
      tok ∈ knownSafeBinaries ++ knownSafeDomains := by
  obtain ⟨t, ht, hc⟩ := h
  rcases List.mem_append.mp ht with hb | hd
  · obtain ⟨t1, h1⟩ := findAllowToken_isSome knownSafeBinaries line ⟨t, hb, hc⟩
    have hm := findAllowToken_mem _ _ _ h1
    refine ⟨t1, "known-safe binary", ?_, hm.2, List.mem_append.mpr (Or.inl hm.1)⟩
    unfold resolveAllowlist
    rw [h1]
  · rcases hbin : findAllowToken knownSafeBinaries line with _ | t1
    · obtain ⟨t2, h2⟩ := findAllowToken_isSome knownSafeDomains line ⟨t, hd, hc⟩
      have hm := findAllowToken_mem _ _ _ h2
      refine ⟨t2, "known-safe domain", ?_, hm.2, List.mem_append.mpr (Or.inr hm.1)⟩
      unfold resolveAllowlist
      rw [hbin, h2]
    · have hm := findAllowToken_mem _ _ _ hbin
      refine ⟨t1, "known-safe binary", ?_, hm.2, List.mem_append.mpr (Or.inl hm.1)⟩
      unfold resolveAllowlist
      rw [hbin]

/-- Claim C1: the softening scale steps down exactly one severity
(LOW staying LOW); the resolution pass never removes a finding (the
resolved list has the same length as the raw one); and every
accepted match whose matched line contains a known-safe binary or
domain as a whole token comes out marked `allowlisted` with its
severity softened one step and a context naming a matched allowlist
token. -/
theorem thm_c1_allowlist_softening :
    (softenSeverity "CRITICAL" = "HIGH" ∧ softenSeverity "HIGH" = "MEDIUM" ∧
     softenSeverity "MEDIUM" = "LOW" ∧ softenSeverity "LOW" = "LOW") ∧
    (∀ (pats : List Pattern) (fname content : Str),
      (analyzeFileV2 pats fname content).length = (analyzeFile pats fname content).length) ∧
    (∀ fl : Finding × Str,
      (∃ t, t ∈ knownSafeBinaries ++ knownSafeDomains ∧ containsWholeToken t fl.2 = true) →
      (resolveStep fl).allowlisted = true ∧
      (resolveStep fl).severity = softenSeverity fl.1.severity ∧
      (∃ tok reason, (resolveStep fl).context = some (mkAllowContext reason tok) ∧
        containsWholeToken tok fl.2 = true ∧
        tok ∈ knownSafeBinaries ++ knownSafeDomains)) := by
  refine ⟨⟨by decide, by decide, by decide, by decide⟩, ?_, ?_⟩
  · intro pats fname content
    unfold analyzeFileV2 analyzeFile
    simp [List.length_map]
  · intro fl h
    obtain ⟨tok, reason, hres, hct, hmem⟩ := resolveAllowlist_spec fl.2 h
    unfold resolveStep
    rw [hres]
    exact ⟨rfl, rfl, tok, reason, rfl, hct, hmem⟩

/-- Witness for claim C1: the matched line of the concrete pair
names the known-safe binary git, and the resolved finding is
allowlisted with its MEDIUM severity softened to LOW. -/
theorem witness_c1 :
    (∃ t, t ∈ knownSafeBinaries ++ knownSafeDomains ∧
      containsWholeToken t demoPair.2 = true) ∧
    (resolveStep demoPair).allowlisted = true ∧
    (resolveStep demoPair).severity = softenSeverity demoPair.1.severity ∧
    softenSeverity demoPair.1.severity = "LOW" := by
  have h : ∃ t, t ∈ knownSafeBinaries ++ knownSafeDomains ∧
      containsWholeToken t demoPair.2 = true :=
    ⟨("git").data, by decide, by decide⟩
  have hc := thm_c1_allowlist_softening.2.2 demoPair h
  exact ⟨h, hc.1, hc.2.1, by decide⟩

set_option maxRecDepth 10000 in
/-- Claim C6 (code bug): the credential-exfiltration signature
declares `requiresCombination = network-activity`, yet on a code
file where its companion has zero matches the analyzer still emits
its finding at the full CRITICAL severity: the matching loop never
consults `requiresCombination`, contradicting the declared intent
of the pattern library. -/
theorem thm_c6_requires_combination_not_enforced :
    credentialExfiltration.requiresCombination = some "network-activity" ∧
    (analyzeFile [credentialExfiltration, networkActivity] c6File c6Content).length = 1 ∧
    (∀ f ∈ analyzeFile [credentialExfiltration, networkActivity] c6File c6Content,
      f.patternId = "credential-exfiltration" ∧ f.severity = "CRITICAL" ∧
      f.allowlisted = false) ∧
    (analyzeFile [credentialExfiltration, networkActivity] c6File c6Content).filter
      (fun f => f.patternId = "network-activity") = [] := by
  refine ⟨rfl, by decide, by decide, by decide⟩

mutual
lemma walkEntry_ok (pats : List Pattern) (pre : Str) (e : FSEntry)
    (hg : goodDirsE e = true) :
    walkEntry pats pre e =
      .ok ⟨readableFilesE pre e,
           ((readableFilesE pre e).map (fun fc => analyzeFile pats fc.1 fc.2)).flatten,
           expectedWarningsE pre e⟩ := by
  cases e with
  | fileE name c =>
    by_cases hskip : name ∈ skippedFiles
    · simp [walkEntry, readableFilesE, expectedWarningsE, hskip]
    · cases c with
      | ok content =>
        simp [walkEntry, readableFilesE, expectedWarningsE, hskip]
      | error err =>
        by_cases hd : err.code = "EISDIR"
        · simp [walkEntry, readableFilesE, expectedWarningsE, hskip, hd]
        · simp [walkEntry, readableFilesE, expectedWarningsE, hskip, hd]
  | dirE name listing =>
    by_cases hskip : name ∈ skippedDirs
    · simp [walkEntry, readableFilesE, expectedWarningsE, hskip]
    · have hg2 : goodDirsL listing = true := by
        simp only [goodDirsE, Bool.or_eq_true, decide_eq_true_eq] at hg
        tauto
      simp only [walkEntry, readableFilesE, expectedWarningsE, if_neg hskip]
      exact walkList_ok pats (relJoin pre name) listing hg2
  | dirFail name msg =>
    have hskip : name ∈ skippedDirs := by
      simpa [goodDirsE] using hg
    simp [walkEntry, readableFilesE, expectedWarningsE, hskip]

lemma walkList_ok (pats : List Pattern) (pre : Str) (entries : List FSEntry)
    (hg : goodDirsL entries = true) :
    walkList pats pre entries =
      .ok ⟨readableFilesL pre entries,
           ((readableFilesL pre entries).map (fun fc => analyzeFile pats fc.1 fc.2)).flatten,
           expectedWarningsL pre entries⟩ := by
  cases entries with
  | nil => simp [walkList, readableFilesL, expectedWarningsL]
  | cons e rest =>
    have hge : goodDirsE e = true := by
      simp only [goodDirsL, Bool.and_eq_true] at hg
      exact hg.1
    have hgr : goodDirsL rest = true := by
      simp only [goodDirsL, Bool.and_eq_true] at hg
      exact hg.2
    simp only [walkList, walkEntry_ok pats pre e hge, walkList_ok pats pre rest hgr,
      readableFilesL, expectedWarningsL]
    simp [List.map_append, List.flatten_append]
end

/-- Claim C8: a missing or unreadable scan root yields the per-skill
error result (error recorded, zero files scanned, empty findings)
returned as a value; when every unskipped directory is readable, an
unreadable file is skipped with exactly its recorded warning while
the remaining files are analyzed, and the result stays gradeable
(its score lies in 0..100). -/
theorem thm_c8_error_semantics :
    (∀ (pats : List Pattern) (now msg : Str),
      analyzeSkill pats now (.error msg) =
        { error := some msg, filesScanned := 0, findings := [],
          warnings := [], timestamp := now }) ∧
    (∀ (pats : List Pattern) (now : Str) (entries : List FSEntry),
      goodDirsL entries = true →
      (analyzeSkill pats now (.ok entries)).error = none ∧
      (analyzeSkill pats now (.ok entries)).filesScanned =
        (readableFilesL [] entries).length ∧
      (analyzeSkill pats now (.ok entries)).findings =
        ((readableFilesL [] entries).map (fun fc => analyzeFile pats fc.1 fc.2)).flatten ∧
      (analyzeSkill pats now (.ok entries)).warnings = expectedWarningsL [] entries ∧
      0 ≤ (calculateScore (analyzeSkill pats now (.ok entries)).findings).score ∧
      (calculateScore (analyzeSkill pats now (.ok entries)).findings).score ≤ 100) := by
  constructor
  · intro pats now msg
    rfl
  · intro pats now entries hg
    have hw := walkList_ok pats [] entries hg
    have hres : analyzeSkill pats now (.ok entries) =
        { error := none, filesScanned := (readableFilesL [] entries).length,
          findings := ((readableFilesL [] entries).map
            (fun fc => analyzeFile pats fc.1 fc.2)).flatten,
          warnings := expectedWarningsL [] entries, timestamp := now } := by
      simp only [analyzeSkill, hw]
    rw [hres]
    refine ⟨rfl, rfl, rfl, rfl, ?_, ?_⟩
    · rcases hx : countSevs (((readableFilesL [] entries).map
        (fun fc => analyzeFile pats fc.1 fc.2)).flatten) with ⟨c, h, m, l⟩
      simp only [calculateScore, hx]
      exact le_max_left 0 _
    · rcases hx : countSevs (((readableFilesL [] entries).map
        (fun fc => analyzeFile pats fc.1 fc.2)).flatten) with ⟨c, h, m, l⟩
      simp only [calculateScore, hx]
      have h1 : (0 : Int) ≤ 30 * (c : Int) + 15 * (h : Int) + 5 * (m : Int) + 0 * (l : Int) := by
        positivity
      omega

/-- Witness for claim C8: on the concrete tree the scan returns no
error, counts exactly the one readable unskipped file, records
exactly the warning of the unreadable file, and the score of the
result is within bounds. -/
theorem witness_c8 :
    goodDirsL demoTree = true ∧
    (analyzeSkill [] (("t0").data) (.ok demoTree)).error = none ∧
    (analyzeSkill [] (("t0").data) (.ok demoTree)).filesScanned = 1 ∧
    (analyzeSkill [] (("t0").data) (.ok demoTree)).warnings =
      [warnMsg (("SKILL.md").data) ⟨"EACCES", ("permission denied").data⟩] ∧
    (analyzeSkill [credentialExfiltration] (("t0").data)
      (.error (("no such directory").data))).filesScanned = 0 := by
  have hg : goodDirsL demoTree = true := by decide
  have h := thm_c8_error_semantics.2 [] (("t0").data) demoTree hg
  refine ⟨hg, h.1, ?_, ?_, ?_⟩
  · rw [h.2.1]
    decide
  · rw [h.2.2.2.1]
    decide
  · rw [thm_c8_error_semantics.1 _ (("t0").data) (("no such directory").data)]

/-- Claim C9: the detection and scoring pipeline is a deterministic
function of the scanned input: the findings list (same findings,
same order, same fields), the error and file count, and the
resulting ScoreResult are all invariant under the one environmental
input (the timestamp), which only lands in the timestamp field. -/
theorem thm_c9_determinism :
    ∀ (pats : List Pattern) (root : Except Str (List FSEntry)) (now1 now2 : Str),
      (analyzeSkill pats now1 root).findings = (analyzeSkill pats now2 root).findings ∧
      (analyzeSkill pats now1 root).error = (analyzeSkill pats now2 root).error ∧
      (analyzeSkill pats now1 root).filesScanned = (analyzeSkill pats now2 root).filesScanned ∧
      (analyzeSkill pats now1 root).warnings = (analyzeSkill pats now2 root).warnings ∧
      calculateScore (analyzeSkill pats now1 root).findings =
        calculateScore (analyzeSkill pats now2 root).findings ∧
      (analyzeSkill pats now1 root).timestamp = now1 := by
  intro pats root now1 now2
  cases root with
  | error msg =>
    exact ⟨rfl, rfl, rfl, rfl, rfl, rfl⟩
  | ok entries =>
    rcases hw : walkList pats [] entries with m | acc <;>
      simp [analyzeSkill, hw]
